import Mathlib

/-!
Verification of the event scheduler at the core of `spreadsheet_music`
(`main.py`): the Note data model and row parser `note_from_dict`, the
fetcher's next-start-time computation (`receive`), the dispatcher step
(`send`), the queue-filtering merge step (`clear_onsets`), and the
priority ordering of queue entries.

Python floats are modelled as exact rationals (ℚ), Python ints as ℤ.
-/

namespace SpreadsheetMusic

/-- MIDI status byte base for note-on messages (`NOTE_ON = 144` in main.py). -/
def NOTE_ON : Int := 144

/-- MIDI status byte base for note-off messages (`NOTE_OFF = 128` in main.py). -/
def NOTE_OFF : Int := 128

/-- The `Note` dataclass of main.py, with its field order and defaults:
`pitch: int`, `channel: int = 1`, `loop: float = 1.0`, `onset: float = 0.0`,
`duration: float = 0.1`, `velocity: float = 64.0`, `probability: float = 1.0`. -/
structure Note where
  pitch : Int
  channel : Int := 1
  loop : ℚ := 1
  onset : ℚ := 0
  duration : ℚ := 1/10
  velocity : ℚ := 64
  probability : ℚ := 1
deriving DecidableEq

/-- A queue entry `(t_event, message, note)` as put on the `asyncio.PriorityQueue`. -/
abbrev Event := ℚ × Int × Note

/-- A MIDI event tuple `(status, pitch, velocity)` as passed to `midi_out.send`. -/
abbrev Midi := Int × Int × ℚ

/-! ### Raw spreadsheet values and Python coercion semantics

`worksheet.get_all_records()` yields rows as dicts whose values are scalars
(strings or numbers).  `note_from_dict` coerces each kept value `v` with
`int(v)` or `float(v)` according to `Note.__annotations__`.  We model a raw
scalar by its behaviour under those two Python builtins. -/

/-- A raw cell value, classified by how Python's `int()` and `float()` treat it:
an empty string, an integer cell, a numeric (float) cell, a string spelling an
integer, a string spelling a non-integer number, or a string coercible to
neither. -/
inductive Raw where
  | emptyStr : Raw
  | intv : Int → Raw
  | floatv : ℚ → Raw
  | strIntv : Int → Raw
  | strFloatv : ℚ → Raw
  | badv : Raw
deriving DecidableEq

/-- Python `int(x)` on a float truncates toward zero. -/
def pyTrunc (q : ℚ) : Int := if 0 ≤ q then ⌊q⌋ else ⌈q⌉

/-- Python `int(v)` on a raw cell value: succeeds on int cells, float cells
(truncating), and integer-literal strings; raises (here: `none`) otherwise. -/
def coerceInt : Raw → Option Int
  | Raw.emptyStr => none
  | Raw.intv n => some n
  | Raw.floatv q => some (pyTrunc q)
  | Raw.strIntv n => some n
  | Raw.strFloatv _ => none
  | Raw.badv => none

/-- Python `float(v)` on a raw cell value: succeeds on int cells, float cells
and numeric strings; raises (here: `none`) otherwise. -/
def coerceFloat : Raw → Option ℚ
  | Raw.emptyStr => none
  | Raw.intv n => some (n : ℚ)
  | Raw.floatv q => some q
  | Raw.strIntv n => some (n : ℚ)
  | Raw.strFloatv q => some q
  | Raw.badv => none

/-- A spreadsheet row as a dict: association list from header name to raw cell
value.  A Python dict has no duplicate keys; theorems that depend on this
carry a `Nodup` hypothesis on the keys. -/
abbrev Record := List (String × Raw)

/-- The seven field names of `Note.__annotations__`. -/
inductive Field where
  | pitch | channel | loop | onset | duration | velocity | probability
deriving DecidableEq

/-- The header name of each Note field. -/
def fieldName : Field → String
  | Field.pitch => "pitch"
  | Field.channel => "channel"
  | Field.loop => "loop"
  | Field.onset => "onset"
  | Field.duration => "duration"
  | Field.velocity => "velocity"
  | Field.probability => "probability"

/-- The membership test `k in types` of the dict comprehension, returning which
Note field (if any) the header name `k` denotes. -/
def fieldOfName (k : String) : Option Field :=
  if k = "pitch" then some Field.pitch
  else if k = "channel" then some Field.channel
  else if k = "loop" then some Field.loop
  else if k = "onset" then some Field.onset
  else if k = "duration" then some Field.duration
  else if k = "velocity" then some Field.velocity
  else if k = "probability" then some Field.probability
  else none

/-- A coerced field value: `int`-typed fields carry an `Int`, `float`-typed
fields carry a `ℚ`. -/
abbrev CVal := Int ⊕ ℚ

/-- `types[k](v)`: coerce a raw value according to the declared type of the
field (`int` for pitch and channel, `float` for the rest). -/
def coerceAs : Field → Raw → Option CVal
  | Field.pitch, v => (coerceInt v).map Sum.inl
  | Field.channel, v => (coerceInt v).map Sum.inl
  | _, v => (coerceFloat v).map Sum.inr

/-- The partially-built coerced dict: what the comprehension has recorded for
each Note field so far. -/
abbrev RawNote := Field → Option CVal

/-- One step of the dict comprehension
`{k: types[k](v) for k, v in record.items() if k in types and v != ''}`:
unknown keys and empty values are skipped, otherwise the value is coerced,
a coercion failure raising (here: `Except.error`). -/
def applyField (acc : RawNote) (kv : String × Raw) : Except String RawNote :=
  match fieldOfName kv.1 with
  | none => Except.ok acc
  | some f =>
    if kv.2 = Raw.emptyStr then Except.ok acc
    else
      match coerceAs f kv.2 with
      | some c => Except.ok (fun g => if g = f then some c else acc g)
      | none => Except.error "could not coerce field to its declared type"

/-- The whole dict comprehension, iterating the record's items in order. -/
def coerceRecord : RawNote → Record → Except String RawNote
  | acc, [] => Except.ok acc
  | acc, kv :: rest =>
    match applyField acc kv with
    | Except.ok acc2 => coerceRecord acc2 rest
    | Except.error e => Except.error e

/-- Read an `int`-typed coerced value. -/
def getIntC : Option CVal → Option Int
  | some (Sum.inl n) => some n
  | _ => none

/-- Read a `float`-typed coerced value. -/
def getRatC : Option CVal → Option ℚ
  | some (Sum.inr q) => some q
  | _ => none

/-- `note_from_dict` of main.py: run the filtering/coercing comprehension,
then `Note(**record)` — `pitch` is required (its absence is a `TypeError`),
the other fields take the dataclass defaults — and finally the sanity check
rejecting `note.loop == 0.0`. -/
def note_from_dict (record : Record) : Except String Note :=
  match coerceRecord (fun _ => none) record with
  | Except.error e => Except.error e
  | Except.ok acc =>
    match getIntC (acc Field.pitch) with
    | none => Except.error "missing required argument pitch"
    | some p =>
      let note : Note :=
        { pitch := p
          channel := (getIntC (acc Field.channel)).getD 1
          loop := (getRatC (acc Field.loop)).getD 1
          onset := (getRatC (acc Field.onset)).getD 0
          duration := (getRatC (acc Field.duration)).getD (1/10)
          velocity := (getRatC (acc Field.velocity)).getD 64
          probability := (getRatC (acc Field.probability)).getD 1 }
      if note.loop = 0 then Except.error "Loop length is zero"
      else Except.ok note

/-! ### Specification-side accessors for records

Used to state theorems about `note_from_dict` in terms of the record's
contents rather than the fold. -/

/-- First-occurrence key lookup in a record (a dict has unique keys, so this
is the dict's entry). -/
def lookupKey (k : String) : Record → Option Raw
  | [] => none
  | (k2, v) :: rest => if k = k2 then some v else lookupKey k rest

/-- The raw value the comprehension keeps for header name `k`: the record's
entry unless it is the empty string (dropped by `v != ''`). -/
def getField (record : Record) (k : String) : Option Raw :=
  match lookupKey k record with
  | none => none
  | some v => if v = Raw.emptyStr then none else some v

/-- The coerced value the dict comprehension produces for a Note field. -/
def supplied (record : Record) (f : Field) : Option CVal :=
  (getField record (fieldName f)).bind (coerceAs f)

/-- The supplied value of an `int`-typed field. -/
def suppliedInt (record : Record) (f : Field) : Option Int :=
  getIntC (supplied record f)

/-- The supplied value of a `float`-typed field. -/
def suppliedRat (record : Record) (f : Field) : Option ℚ :=
  getRatC (supplied record f)

/-- Whether one record item survives coercion: unknown keys and empty values
are skipped (vacuously fine), kept values must coerce to the declared type. -/
def coercesB (kv : String × Raw) : Bool :=
  match fieldOfName kv.1 with
  | none => true
  | some f => decide (kv.2 = Raw.emptyStr) || (coerceAs f kv.2).isSome

/-! ### Fetcher: next start time (`receive`, lines 108–115)

For each parsed note, `receive` computes
`t_event = t // note.loop * note.loop + note.onset % note.loop` and then
`while t_event < t: t_event += note.loop`.  Python `//` on floats is
`floor(a/b)` and `%` is `a - b*floor(a/b)`.  The `while` loop is embedded
with an explicit fuel that, for `loop > 0`, is enough for the loop to reach
its exit condition (proved below); for `loop ≤ 0` the Python loop would not
terminate whenever `t_event < t`. -/

/-- Python float floor division `a // b`. -/
def pyFloorDiv (a b : ℚ) : ℚ := ((⌊a / b⌋ : Int) : ℚ)

/-- Python float modulo `a % b = a - b * (a // b)` (sign follows `b`). -/
def pyMod (a b : ℚ) : ℚ := a - b * ((⌊a / b⌋ : Int) : ℚ)

/-- The loop `while t_event < t: t_event += loopv`, run for at most `fuel`
iterations. -/
def bumpFuel : Nat → ℚ → ℚ → ℚ → ℚ
  | 0, _, _, x => x
  | n + 1, t, loopv, x => if x < t then bumpFuel n t loopv (x + loopv) else x

/-- `t_event` as computed by `receive` for a note with the given `loop` and
`onset` at elapsed time `t`: the floor-division seed, then the bumping
`while` loop (fuel `⌈(t - seed)/loop⌉` suffices exactly when `loop > 0`). -/
def computeTEvent (t loopv onset : ℚ) : ℚ :=
  let base := pyFloorDiv t loopv * loopv + pyMod onset loopv
  bumpFuel (Int.toNat ⌈(t - base) / loopv⌉) t loopv base

/-- One fetch cycle of `receive` (lines 108–118): for each row in order,
parse it (`note_from_dict`); on success compute `t_event` at the elapsed
time current for that row (`ts i`, since `t = time() - start_time` is
re-read per row) and emit the `(t_event, NOTE_ON, note)` queue insertion;
on parse failure skip the row. -/
def receiveCycle (ts : Nat → ℚ) : Nat → List Record → List Event
  | _, [] => []
  | i, r :: rs =>
    match note_from_dict r with
    | Except.ok note =>
        (computeTEvent (ts i) note.loop note.onset, NOTE_ON, note)
          :: receiveCycle ts (i + 1) rs
    | Except.error _ => receiveCycle ts (i + 1) rs

/-! ### Dispatcher step (`send`, lines 141–157)

One iteration of the `send` loop after popping `(t_event, message, note)`
at elapsed time `t`, given the value `draw` that `random.random()` would
return.  Result: `(emitted MIDI events, queue insertions, number of calls
to random.random(), whether the branch sleeps)`.  The code fires only when
`t > t_event` (strict); otherwise the event is re-inserted unchanged and
the loop sleeps for the poll interval. -/

/-- One dispatcher iteration on a popped event. -/
def sendStep (t : ℚ) (e : Event) (draw : ℚ) : List Midi × List Event × Nat × Bool :=
  let t_event := e.1
  let message := e.2.1
  let note := e.2.2
  if t_event < t then
    let midi_event : Midi := (message + note.channel - 1, note.pitch, note.velocity)
    if message = NOTE_OFF then
      ([midi_event], [], 0, false)
    else
      if draw < note.probability then
        ([midi_event],
         [(t_event + note.duration, NOTE_OFF, note),
          (t_event + note.loop, NOTE_ON, note)], 1, false)
      else
        ([], [(t_event + note.loop, NOTE_ON, note)], 1, false)
  else
    ([], [e], 0, true)

/-- The chain of START renewals produced by repeated dispatches of a note's
START event: each due START inserts the next at `t_event + note.loop`
(line 153), regardless of the probability draw. -/
def startSeq (first loopv : ℚ) : Nat → ℚ
  | 0 => first
  | n + 1 => startSeq first loopv n + loopv

/-! ### Merge step (`clear_onsets`, lines 160–179)

`clear_onsets` drains the whole queue, keeps exactly the entries with
`message == NOTE_OFF`, and re-inserts them.  On the queue viewed as a
multiset of entries this is a filter. -/

/-- `clear_onsets`: remove all NOTE_ON events, keep all NOTE_OFF events. -/
def clear_onsets (queue : List Event) : List Event :=
  queue.filter (fun e => e.2.1 = NOTE_OFF)

/-! ### Queue ordering (`asyncio.PriorityQueue` on tuples)

Queue entries are Python tuples `(t_event, message, note)` compared
lexicographically; `Note` has `order=True`, so notes compare as the tuple
of their fields in declaration order. -/

/-- Python's ordering on `Note` (dataclass `order=True`): lexicographic on
`(pitch, channel, loop, onset, duration, velocity, probability)`. -/
def noteLtB (a b : Note) : Bool :=
  if a.pitch ≠ b.pitch then a.pitch < b.pitch
  else if a.channel ≠ b.channel then a.channel < b.channel
  else if a.loop ≠ b.loop then a.loop < b.loop
  else if a.onset ≠ b.onset then a.onset < b.onset
  else if a.duration ≠ b.duration then a.duration < b.duration
  else if a.velocity ≠ b.velocity then a.velocity < b.velocity
  else if a.probability ≠ b.probability then a.probability < b.probability
  else false

/-- Python's ordering on queue entries: lexicographic on
`(t_event, message, note)`. -/
def eventLtB (a b : Event) : Bool :=
  if a.1 ≠ b.1 then a.1 < b.1
  else if a.2.1 ≠ b.2.1 then a.2.1 < b.2.1
  else noteLtB a.2.2 b.2.2

/-- The minimum entry the priority queue would pop, among `e` and `q`. -/
def queueMin (e : Event) (q : List Event) : Event :=
  q.foldl (fun acc x => if eventLtB x acc then x else acc) e

/-! ### Concrete values used by witnesses and counterexamples -/

/-- A note with pitch 60 and all dataclass defaults. -/
def note60 : Note := { pitch := 60 }

/-- A row supplying only `pitch = 60` as an integer cell. -/
def recP60 : Record := [("pitch", Raw.intv 60)]

/-! ### Theorems -/

/-- An equal-time NOTE_OFF entry sorts strictly before a NOTE_ON entry,
because 128 < 144. -/
theorem off_before_on (t : ℚ) (n m : Note) :
    eventLtB (t, NOTE_OFF, n) (t, NOTE_ON, m) = true := by
  simp [eventLtB, NOTE_ON, NOTE_OFF]

/-- Claim C1: a due START event draws exactly once against the note's
probability; on success the ON message is emitted and a STOP is inserted at
`fire_time + duration`; in both cases the renewal START is inserted at
`fire_time + loop`; on a miss nothing is emitted and no STOP is inserted. -/
theorem start_dispatch_spec (t tE draw : ℚ) (note : Note) (hdue : tE < t) :
    (sendStep t (tE, NOTE_ON, note) draw).2.2.1 = 1 ∧
    (draw < note.probability →
      sendStep t (tE, NOTE_ON, note) draw =
        ([(NOTE_ON + note.channel - 1, note.pitch, note.velocity)],
         [(tE + note.duration, NOTE_OFF, note), (tE + note.loop, NOTE_ON, note)],
         1, false)) ∧
    (note.probability ≤ draw →
      sendStep t (tE, NOTE_ON, note) draw =
        ([], [(tE + note.loop, NOTE_ON, note)], 1, false)) := by
  refine ⟨?_, ?_, ?_⟩
  · by_cases h : draw < note.probability <;>
      simp [sendStep, NOTE_ON, NOTE_OFF, hdue, h]
  · intro h; simp [sendStep, NOTE_ON, NOTE_OFF, hdue, h]
  · intro h; simp [sendStep, NOTE_ON, NOTE_OFF, hdue, not_lt.mpr h]

/-- Witness for `start_dispatch_spec` at `t = 1`, `t_event = 0`, `draw = 0`. -/
theorem start_dispatch_spec_witness :
    sendStep 1 (0, NOTE_ON, note60) 0 =
      ([(NOTE_ON + note60.channel - 1, note60.pitch, note60.velocity)],
       [(0 + note60.duration, NOTE_OFF, note60), (0 + note60.loop, NOTE_ON, note60)],
       1, false) :=
  (start_dispatch_spec 1 0 0 note60 (by norm_num)).2.1 (by norm_num [note60])

/-- Claim C4: a due STOP event emits the OFF message unconditionally (the
probability draw is neither consulted nor made: zero calls to
`random.random()`), inserts nothing, and the OFF message is built from the
Note value carried inside the event itself. -/
theorem stop_dispatch_spec (t tE draw : ℚ) (note : Note) (hdue : tE < t) :
    sendStep t (tE, NOTE_OFF, note) draw =
      ([(NOTE_OFF + note.channel - 1, note.pitch, note.velocity)], [], 0, false) := by
  simp [sendStep, hdue]

/-- Witness for `stop_dispatch_spec` at `t = 1`, `t_event = 0`. -/
theorem stop_dispatch_spec_witness :
    sendStep 1 (0, NOTE_OFF, note60) 0 =
      ([(NOTE_OFF + note60.channel - 1, note60.pitch, note60.velocity)], [], 0, false) :=
  stop_dispatch_spec 1 0 0 note60 (by norm_num)

/-- Claim C5 counterexample: at `now = fire_time` (here both 1) the popped
event does NOT fire — nothing is emitted, the event is reinserted unchanged
and the dispatcher sleeps — refuting the claim that an event whose fire_time
equals the current time is already due.  The code's guard is strict:
`if t > t_event`. -/
theorem due_boundary_counterexample :
    sendStep 1 (1, NOTE_OFF, note60) 0 = ([], [(1, NOTE_OFF, note60)], 0, true) := by
  norm_num [sendStep]

/-- Claim C5 (amended): an event fires exactly when `now > fire_time`
holds strictly at the pop; when `now ≤ fire_time` (including equality) the
event is reinserted completely unchanged and the dispatcher sleeps for the
poll interval. -/
theorem dispatch_due_condition (t tE draw : ℚ) (msg : Int) (note : Note) :
    ((sendStep t (tE, msg, note) draw).2.2.2 = false ↔ tE < t) ∧
    (t ≤ tE → sendStep t (tE, msg, note) draw = ([], [(tE, msg, note)], 0, true)) := by
  refine ⟨?_, ?_⟩
  · by_cases h1 : tE < t
    · by_cases h2 : msg = NOTE_OFF
      · simp [sendStep, h1, h2]
      · by_cases h3 : draw < note.probability <;> simp [sendStep, h1, h2, h3]
    · simp [sendStep, h1]
  · intro hle
    simp [sendStep, not_lt.mpr hle]

/-- Witness for `dispatch_due_condition`: a not-yet-due event is reinserted. -/
theorem dispatch_due_condition_witness :
    sendStep 0 (1, NOTE_ON, note60) 0 = ([], [(1, NOTE_ON, note60)], 0, true) :=
  (dispatch_due_condition 0 1 0 NOTE_ON note60).2 (by norm_num)

/-- Claim C6: the chain of START renewals advances by exactly `loop` each
cycle — the n-th START fire_time is `first + n * loop` in exact arithmetic —
and the renewal insertion at `t_event + loop` happens for every draw value,
i.e. independently of the probability outcome. -/
theorem loop_phase_preservation (first loopv t tE draw : ℚ) (note : Note)
    (n : Nat) (hdue : tE < t) :
    startSeq first loopv n = first + n * loopv ∧
    (tE + note.loop, NOTE_ON, note) ∈ (sendStep t (tE, NOTE_ON, note) draw).2.1 := by
  constructor
  · induction n with
    | zero => simp [startSeq]
    | succ m ih => rw [startSeq, ih]; push_cast; ring
  · by_cases h : draw < note.probability <;>
      simp [sendStep, NOTE_ON, NOTE_OFF, hdue, h]

/-- Witness for `loop_phase_preservation` at `n = 3`. -/
theorem loop_phase_preservation_witness :
    startSeq 0 1 3 = 0 + (3 : Nat) * 1 ∧
    (0 + note60.loop, NOTE_ON, note60) ∈ (sendStep 1 (0, NOTE_ON, note60) 0).2.1 :=
  loop_phase_preservation 0 1 1 0 0 note60 3 (by norm_num)

/-- Claim C3: `clear_onsets` leaves no START (NOTE_ON) event in the queue,
preserves the multiplicity of every STOP (NOTE_OFF) event exactly, and is
idempotent. -/
theorem clear_onsets_spec (q : List Event) :
    (∀ e : Event, e.2.1 = NOTE_ON → e ∉ clear_onsets q) ∧
    (∀ e : Event, e.2.1 = NOTE_OFF → (clear_onsets q).count e = q.count e) ∧
    clear_onsets (clear_onsets q) = clear_onsets q := by
  refine ⟨?_, ?_, ?_⟩
  · intro e he hmem
    have h := List.of_mem_filter hmem
    rw [he] at h
    simp [NOTE_ON, NOTE_OFF] at h
  · intro e he
    induction q with
    | nil => rfl
    | cons x xs ih =>
      by_cases hx : x.2.1 = NOTE_OFF
      · have h2 : clear_onsets (x :: xs) = x :: clear_onsets xs := by
          simp [clear_onsets, List.filter_cons, hx]
        rw [h2, List.count_cons, List.count_cons, ih]
      · have hxe : ¬ (e = x) := fun hcontra => hx (by rw [← hcontra]; exact he)
        have h2 : clear_onsets (x :: xs) = clear_onsets xs := by
          simp [clear_onsets, List.filter_cons, hx]
        rw [h2, ih]
        simp [List.count_cons, hxe]
  · rw [clear_onsets, clear_onsets, List.filter_filter]
    simp

/-- Witness for `clear_onsets_spec` on a two-element queue. -/
theorem clear_onsets_spec_witness :
    ((1 : ℚ), NOTE_ON, note60) ∉
      clear_onsets [((1 : ℚ), NOTE_ON, note60), ((2 : ℚ), NOTE_OFF, note60)] ∧
    (clear_onsets [((1 : ℚ), NOTE_ON, note60), ((2 : ℚ), NOTE_OFF, note60)]).count
        ((2 : ℚ), NOTE_OFF, note60) =
      [((1 : ℚ), NOTE_ON, note60), ((2 : ℚ), NOTE_OFF, note60)].count
        ((2 : ℚ), NOTE_OFF, note60) :=
  ⟨(clear_onsets_spec _).1 _ rfl, (clear_onsets_spec _).2.1 _ rfl⟩

/-- The Python ordering on notes is total: for any two notes, one compares
below the other or they are equal (no incomparable pairs). -/
theorem noteLtB_total (a b : Note) :
    noteLtB a b = true ∨ noteLtB b a = true ∨ a = b := by
  by_cases h1 : a.pitch = b.pitch
  · by_cases h2 : a.channel = b.channel
    · by_cases h3 : a.loop = b.loop
      · by_cases h4 : a.onset = b.onset
        · by_cases h5 : a.duration = b.duration
          · by_cases h6 : a.velocity = b.velocity
            · by_cases h7 : a.probability = b.probability
              · right; right
                cases a; cases b; simp_all
              · rcases Ne.lt_or_lt h7 with h | h
                · left; simp [noteLtB, h1, h2, h3, h4, h5, h6, h.ne, h]
                · right; left; simp [noteLtB, h1, h2, h3, h4, h5, h6, h.ne, h]
            · rcases Ne.lt_or_lt h6 with h | h
              · left; simp [noteLtB, h1, h2, h3, h4, h5, h.ne, h]
              · right; left; simp [noteLtB, h1, h2, h3, h4, h5, h.ne, h]
          · rcases Ne.lt_or_lt h5 with h | h
            · left; simp [noteLtB, h1, h2, h3, h4, h.ne, h]
            · right; left; simp [noteLtB, h1, h2, h3, h4, h.ne, h]
        · rcases Ne.lt_or_lt h4 with h | h
          · left; simp [noteLtB, h1, h2, h3, h.ne, h]
          · right; left; simp [noteLtB, h1, h2, h3, h.ne, h]
      · rcases Ne.lt_or_lt h3 with h | h
        · left; simp [noteLtB, h1, h2, h.ne, h]
        · right; left; simp [noteLtB, h1, h2, h.ne, h]
    · rcases Ne.lt_or_lt h2 with h | h
      · left; simp [noteLtB, h1, h.ne, h]
      · right; left; simp [noteLtB, h1, h.ne, h]
  · rcases Ne.lt_or_lt h1 with h | h
    · left; simp [noteLtB, h.ne, h]
    · right; left; simp [noteLtB, h.ne, h]

/-- The tuple ordering on queue entries is total: comparisons in the heap
never fail on incomparable entries. -/
theorem eventLtB_total (e1 e2 : Event) :
    eventLtB e1 e2 = true ∨ eventLtB e2 e1 = true ∨ e1 = e2 := by
  obtain ⟨t1, m1, n1⟩ := e1
  obtain ⟨t2, m2, n2⟩ := e2
  by_cases h1 : t1 = t2
  · by_cases h2 : m1 = m2
    · rcases noteLtB_total n1 n2 with h | h | h
      · left; simp [eventLtB, h1, h2, h]
      · right; left; simp [eventLtB, h1, h2, h]
      · right; right; simp [h1, h2, h]
    · rcases Ne.lt_or_lt h2 with h | h
      · left; simp [eventLtB, h1, h.ne, h]
      · right; left; simp [eventLtB, h1, h.ne, h]
  · rcases Ne.lt_or_lt h1 with h | h
    · left; simp [eventLtB, h.ne, h]
    · right; left; simp [eventLtB, h.ne, h]

/-- Claim C10: queue entries are ordered lexicographically on
`(fire_time, kind, note)`; at equal fire_times a NOTE_OFF (128) entry sorts
before a NOTE_ON (144) entry, so the pop returns the STOP first; ties on
both components fall through to the Note order, which starts with pitch;
and the order is total, so popping never fails on incomparable entries. -/
theorem queue_order_spec :
    (∀ (t : ℚ) (n m : Note), eventLtB (t, NOTE_OFF, n) (t, NOTE_ON, m) = true) ∧
    (∀ e1 e2 : Event, eventLtB e1 e2 = true ∨ eventLtB e2 e1 = true ∨ e1 = e2) ∧
    (∀ n m : Note, n.pitch < m.pitch → noteLtB n m = true) ∧
    (∀ (t : ℚ) (n m : Note),
      queueMin (t, NOTE_ON, m) [(t, NOTE_OFF, n)] = (t, NOTE_OFF, n)) := by
  refine ⟨off_before_on, eventLtB_total, ?_, ?_⟩
  · intro n m h
    simp [noteLtB, h.ne, h]
  · intro t n m
    simp [queueMin, off_before_on t n m]

/-- Witness for `queue_order_spec`: a pitch-60 note sorts below a pitch-62
note. -/
theorem queue_order_spec_witness :
    noteLtB note60 { pitch := 62 } = true :=
  queue_order_spec.2.2.1 note60 { pitch := 62 } (by norm_num [note60])

/-! ### Lemmas about the fetcher's while loop and Python modulo -/

/-- Python float modulo by a positive divisor is nonnegative. -/
theorem pyMod_nonneg (a l : ℚ) (hl : 0 < l) : 0 ≤ pyMod a l := by
  have h1 : ((⌊a / l⌋ : ℤ) : ℚ) ≤ a / l := Int.floor_le (a / l)
  have h2 : l * ((⌊a / l⌋ : ℤ) : ℚ) ≤ l * (a / l) := mul_le_mul_of_nonneg_left h1 hl.le
  have h3 : l * (a / l) = a := by field_simp
  simp only [pyMod]
  linarith

/-- Python float modulo by a positive divisor is below the divisor. -/
theorem pyMod_lt (a l : ℚ) (hl : 0 < l) : pyMod a l < l := by
  have h1 : a / l < ((⌊a / l⌋ : ℤ) : ℚ) + 1 := Int.lt_floor_add_one (a / l)
  have h2 : l * (a / l) < l * (((⌊a / l⌋ : ℤ) : ℚ) + 1) := (mul_lt_mul_left hl).mpr h1
  have h3 : l * (a / l) = a := by field_simp
  have h4 : l * (((⌊a / l⌋ : ℤ) : ℚ) + 1) = l * ((⌊a / l⌋ : ℤ) : ℚ) + l := by ring
  simp only [pyMod]
  linarith

/-- The bumping loop never stops below `t` when given enough fuel to reach
`t`. -/
theorem bumpFuel_ge (t loopv : ℚ) :
    ∀ (fuel : Nat) (x : ℚ), t ≤ x + fuel * loopv → t ≤ bumpFuel fuel t loopv x := by
  intro fuel
  induction fuel with
  | zero => intro x h; simpa [bumpFuel] using h
  | succ m ih =>
    intro x h
    rw [bumpFuel]
    split_ifs with hx
    · apply ih
      push_cast at h ⊢
      linarith
    · linarith [not_lt.mp hx]

/-- The bumping loop only ever adds whole multiples of `loopv`. -/
theorem bumpFuel_form (t loopv : ℚ) :
    ∀ (fuel : Nat) (x : ℚ), ∃ n : Nat, bumpFuel fuel t loopv x = x + n * loopv := by
  intro fuel
  induction fuel with
  | zero => intro x; exact ⟨0, by simp [bumpFuel]⟩
  | succ m ih =>
    intro x
    rw [bumpFuel]
    split_ifs with hx
    · obtain ⟨n, hn⟩ := ih (x + loopv)
      refine ⟨n + 1, ?_⟩
      rw [hn]
      push_cast
      ring
    · exact ⟨0, by simp⟩

/-- The bumping loop stops at the first multiple that reaches `t`: its
result is below every `x + n * loopv` that already reaches `t`. -/
theorem bumpFuel_min (t loopv : ℚ) (hl : 0 < loopv) :
    ∀ (fuel : Nat) (x : ℚ), t ≤ x + fuel * loopv →
      ∀ n : Nat, t ≤ x + n * loopv → bumpFuel fuel t loopv x ≤ x + n * loopv := by
  intro fuel
  induction fuel with
  | zero =>
    intro x hfuel n hn
    have h0 : (0 : ℚ) ≤ (n : ℚ) * loopv := mul_nonneg (Nat.cast_nonneg n) hl.le
    simp only [bumpFuel]
    simp only [bumpFuel, Nat.cast_zero, zero_mul, add_zero] at hfuel
    linarith
  | succ m ih =>
    intro x hfuel n hn
    rw [bumpFuel]
    split_ifs with hx
    · cases n with
      | zero =>
        exfalso
        simp only [Nat.cast_zero, zero_mul, add_zero] at hn
        linarith
      | succ j =>
        have h1 : t ≤ (x + loopv) + (m : ℚ) * loopv := by
          push_cast at hfuel
          linarith
        have h2 : t ≤ (x + loopv) + (j : ℚ) * loopv := by
          push_cast at hn
          linarith
        have h3 := ih (x + loopv) h1 j h2
        push_cast
        calc bumpFuel m t loopv (x + loopv) ≤ x + loopv + (j : ℚ) * loopv := h3
          _ = x + ((j : ℚ) + 1) * loopv := by ring
    · have h0 : (0 : ℚ) ≤ (n : ℚ) * loopv := mul_nonneg (Nat.cast_nonneg n) hl.le
      linarith

/-- Claim C2: for `loop > 0`, the fetcher's `t_event` is at least `t`
(never in the past), has the form `k * loop + (onset mod loop)` for some
integer `k`, and is the smallest value of that form that is `>= t`. -/
theorem next_start_time_spec (t loopv onset : ℚ) (hl : 0 < loopv) :
    t ≤ computeTEvent t loopv onset ∧
    (∃ k : ℤ, computeTEvent t loopv onset = k * loopv + pyMod onset loopv) ∧
    (∀ k : ℤ, t ≤ k * loopv + pyMod onset loopv →
      computeTEvent t loopv onset ≤ k * loopv + pyMod onset loopv) := by
  have hl0 : loopv ≠ 0 := ne_of_gt hl
  set m := pyMod onset loopv with hm
  set F : ℤ := ⌊t / loopv⌋ with hF
  set B : ℚ := (F : ℚ) * loopv + m with hB
  have hcte : computeTEvent t loopv onset = bumpFuel (Int.toNat ⌈(t - B) / loopv⌉) t loopv B := rfl
  set N := Int.toNat ⌈(t - B) / loopv⌉ with hN
  have hceil : (t - B) / loopv ≤ (N : ℚ) := by
    have h1 : (t - B) / loopv ≤ ((⌈(t - B) / loopv⌉ : ℤ) : ℚ) := Int.le_ceil _
    have h2 : ((⌈(t - B) / loopv⌉ : ℤ) : ℚ) ≤ (N : ℚ) := by
      rw [hN]
      exact_mod_cast Int.self_le_toNat _
    exact le_trans h1 h2
  have hfuel : t ≤ B + (N : ℚ) * loopv := by
    have h2 : t - B ≤ (N : ℚ) * loopv := (div_le_iff₀ hl).mp hceil
    linarith
  refine ⟨?_, ?_, ?_⟩
  · rw [hcte]
    exact bumpFuel_ge t loopv N B hfuel
  · obtain ⟨n, hn⟩ := bumpFuel_form t loopv N B
    refine ⟨F + n, ?_⟩
    rw [hcte, hn, hB]
    push_cast
    ring
  · intro k hk
    rw [hcte]
    by_cases hkF : F ≤ k
    · have hnk : ((k - F).toNat : ℤ) = k - F := Int.toNat_of_nonneg (by omega)
      have hc : ((k - F).toNat : ℚ) = (k : ℚ) - (F : ℚ) := by exact_mod_cast hnk
      have heq : (k : ℚ) * loopv + m = B + ((k - F).toNat : ℚ) * loopv := by
        rw [hB, hc]
        ring
      rw [heq] at hk ⊢
      exact bumpFuel_min t loopv hl N B hfuel _ hk
    · push_neg at hkF
      have h5 : k + 1 ≤ F := by omega
      have hkq : (k : ℚ) + 1 ≤ (F : ℚ) := by exact_mod_cast h5
      have hmlt : m < loopv := by
        rw [hm]
        exact pyMod_lt onset loopv hl
      have hFl : (F : ℚ) * loopv ≤ t := by
        have h1 : ((F : ℤ) : ℚ) ≤ t / loopv := by
          rw [hF]
          exact Int.floor_le _
        calc (F : ℚ) * loopv ≤ (t / loopv) * loopv := mul_le_mul_of_nonneg_right h1 hl.le
          _ = t := div_mul_cancel₀ t hl0
      have hprod : (k : ℚ) * loopv + loopv ≤ (F : ℚ) * loopv := by
        have h6 : ((k : ℚ) + 1) * loopv ≤ (F : ℚ) * loopv :=
          mul_le_mul_of_nonneg_right hkq hl.le
        linarith [h6]
      have hcontra : (k : ℚ) * loopv + m < t := by linarith
      linarith

/-- Witness for `next_start_time_spec` at `t = 5`, `loop = 2`, `onset = 1`. -/
theorem next_start_time_spec_witness :
    (5 : ℚ) ≤ computeTEvent 5 2 1 ∧
    ∃ k : ℤ, computeTEvent 5 2 1 = k * 2 + pyMod 1 2 :=
  ⟨(next_start_time_spec 5 2 1 (by norm_num)).1,
   (next_start_time_spec 5 2 1 (by norm_num)).2.1⟩

/-! ### Lemmas about the parsing comprehension -/

/-- Each known field name resolves to its field. -/
theorem fieldOfName_fieldName (f : Field) : fieldOfName (fieldName f) = some f := by
  cases f <;> rfl

/-- A name resolving to a field is that field's name. -/
theorem fieldOfName_some {k : String} {f : Field} (h : fieldOfName k = some f) :
    k = fieldName f := by
  unfold fieldOfName at h
  split_ifs at h <;> (injection h with h2; subst h2; simp_all [fieldName])

/-- Distinct fields have distinct header names. -/
theorem fieldName_injective {a b : Field} (h : fieldName a = fieldName b) : a = b := by
  cases a <;> cases b <;> first | rfl | exact absurd h (by decide)

/-- Left-biased choice between coerced values (later fold updates do not
override an already-recorded earlier one when keys are distinct). -/
def orO (a b : Option CVal) : Option CVal :=
  match a with
  | some c => some c
  | none => b

theorem orO_none_right (a : Option CVal) : orO a none = a := by
  cases a <;> rfl

/-- Looking up a key that is not among the record's keys yields nothing. -/
theorem lookupKey_not_mem {k : String} :
    ∀ record : Record, k ∉ record.map Prod.fst → lookupKey k record = none := by
  intro record
  induction record with
  | nil => intro _; rfl
  | cons kv rest ih =>
    obtain ⟨k2, v⟩ := kv
    intro h
    rw [List.map_cons, List.mem_cons] at h
    push_neg at h
    rw [lookupKey, if_neg h.1]
    exact ih h.2

/-- One comprehension step succeeds exactly on items that survive coercion. -/
theorem applyField_isOk (acc : RawNote) (kv : String × Raw) :
    (applyField acc kv).isOk = coercesB kv := by
  unfold applyField coercesB
  cases hf : fieldOfName kv.1 with
  | none => rfl
  | some f =>
    by_cases hv : kv.2 = Raw.emptyStr
    · simp [hv, Except.isOk, Except.toBool]
    · cases hc : coerceAs f kv.2 <;> simp [hv, hc, Except.isOk, Except.toBool]

/-- The comprehension succeeds exactly when every item survives coercion. -/
theorem coerceRecord_isOk (record : Record) :
    ∀ acc : RawNote, (coerceRecord acc record).isOk = record.all coercesB := by
  induction record with
  | nil => intro acc; rfl
  | cons kv rest ih =>
    intro acc
    have happ := applyField_isOk acc kv
    cases h : applyField acc kv with
    | ok acc2 =>
      rw [h] at happ
      have hco : coercesB kv = true := by rw [← happ]; rfl
      simp [coerceRecord, h, List.all_cons, hco, ih acc2]

    | error e =>
      rw [h] at happ
      have hco : coercesB kv = false := by rw [← happ]; rfl
      simp [coerceRecord, h, List.all_cons, hco, Except.isOk, Except.toBool]

/-- When the record has no duplicate keys and every item survives coercion,
the comprehension computes, for each field, the coerced value from the
record's (unique) entry for that field's name, falling back to the initial
accumulator. -/
theorem coerceRecord_eval (record : Record) :
    ∀ acc : RawNote, (record.map Prod.fst).Nodup → record.all coercesB = true →
      coerceRecord acc record = Except.ok (fun f => orO (supplied record f) (acc f)) := by
  induction record with
  | nil =>
    intro acc _ _
    rfl
  | cons kv rest ih =>
    obtain ⟨k, v⟩ := kv
    intro acc hnd hall
    rw [List.map_cons, List.nodup_cons] at hnd
    obtain ⟨hk, hnd2⟩ := hnd
    rw [List.all_cons, Bool.and_eq_true] at hall
    obtain ⟨hckv, hrest⟩ := hall
    cases hf : fieldOfName k with
    | none =>
      have happ : applyField acc (k, v) = Except.ok acc := by
        simp [applyField, hf]
      simp only [coerceRecord, happ]
      rw [ih acc hnd2 hrest]
      congr 1
      funext f
      have hne : fieldName f ≠ k := by
        intro he
        rw [← he, fieldOfName_fieldName] at hf
        cases hf
      simp [supplied, getField, lookupKey, hne]
    | some f0 =>
      have hkeq : k = fieldName f0 := fieldOfName_some hf
      by_cases hv : v = Raw.emptyStr
      · have happ : applyField acc (k, v) = Except.ok acc := by
          simp [applyField, hf, hv]
        simp only [coerceRecord, happ]
        rw [ih acc hnd2 hrest]
        congr 1
        funext f
        by_cases hfe : f = f0
        · subst hfe
          have hr : lookupKey (fieldName f) rest = none :=
            lookupKey_not_mem rest (hkeq ▸ hk)
          simp [supplied, getField, lookupKey, hkeq, hv, hr]
        · have hne : fieldName f ≠ k := fun he => hfe (fieldName_injective (he.trans hkeq))
          simp [supplied, getField, lookupKey, hne]
      · cases hc : coerceAs f0 v with
        | none =>
          exfalso
          simp only [coercesB, hf] at hckv
          simp [hv, hc] at hckv
        | some c =>
          have happ : applyField acc (k, v) =
              Except.ok (fun g => if g = f0 then some c else acc g) := by
            simp [applyField, hf, hv, hc]
          simp only [coerceRecord, happ]
          rw [ih _ hnd2 hrest]
          congr 1
          funext f
          by_cases hfe : f = f0
          · subst hfe
            have hr : lookupKey (fieldName f) rest = none :=
              lookupKey_not_mem rest (hkeq ▸ hk)
            simp [supplied, getField, lookupKey, hkeq, hv, hr, hc, orO]
          · have hne : fieldName f ≠ k := fun he => hfe (fieldName_injective (he.trans hkeq))
            simp [supplied, getField, lookupKey, hne, hfe, orO]

/-- Claim C7: `note_from_dict` succeeds exactly when every supplied known
field coerces to its declared type, a non-empty coercible `pitch` entry is
present, and the loop value (supplied or default `1.0`) is not zero; on
success the Note's fields are the supplied coerced values with the
dataclass defaults `channel = 1`, `loop = 1`, `onset = 0`,
`duration = 1/10`, `velocity = 64`, `probability = 1` filling the gaps;
unknown fields are ignored and empty values count as absent.  In
particular a fully empty record fails (no pitch). -/
theorem note_parse_spec (record : Record) (hnd : (record.map Prod.fst).Nodup) :
    ((note_from_dict record).isOk = true ↔
      (record.all coercesB = true ∧ (suppliedInt record Field.pitch).isSome = true ∧
        (suppliedRat record Field.loop).getD 1 ≠ 0)) ∧
    (∀ p : Int, record.all coercesB = true → suppliedInt record Field.pitch = some p →
      (suppliedRat record Field.loop).getD 1 ≠ 0 →
      note_from_dict record = Except.ok
        { pitch := p
          channel := (suppliedInt record Field.channel).getD 1
          loop := (suppliedRat record Field.loop).getD 1
          onset := (suppliedRat record Field.onset).getD 0
          duration := (suppliedRat record Field.duration).getD (1/10)
          velocity := (suppliedRat record Field.velocity).getD 64
          probability := (suppliedRat record Field.probability).getD 1 }) := by
  by_cases hall : record.all coercesB = true
  · have hcr := coerceRecord_eval record (fun _ => none) hnd hall
    have hacc : (fun f => orO (supplied record f) ((fun _ => (none : Option CVal)) f)) =
        fun f => supplied record f := by
      funext f
      exact orO_none_right _
    rw [hacc] at hcr
    constructor
    · unfold note_from_dict
      rw [hcr]
      cases hp : getIntC (supplied record Field.pitch) with
      | none => simp [suppliedInt, hp, hall, Except.isOk, Except.toBool]
      | some p =>
        by_cases hloop : (getRatC (supplied record Field.loop)).getD 1 = 0
        · simp [suppliedInt, suppliedRat, hp, hloop, hall, Except.isOk, Except.toBool]
        · simp [suppliedInt, suppliedRat, hp, hloop, hall, Except.isOk, Except.toBool]
    · intro p hall2 hp hloop
      unfold note_from_dict
      rw [hcr]
      rw [suppliedInt] at hp
      rw [suppliedRat] at hloop
      simp [hp, hloop, suppliedInt, suppliedRat]
  · have hokk := coerceRecord_isOk record (fun _ => none)
    have hall2 : record.all coercesB = false := by
      revert hall
      cases record.all coercesB <;> simp
    cases hcr : coerceRecord (fun _ => (none : Option CVal)) record with
    | ok acc =>
      rw [hcr, hall2] at hokk
      simp [Except.isOk, Except.toBool] at hokk
    | error e =>
      constructor
      · unfold note_from_dict
        rw [hcr]
        simp [hall2, Except.isOk, Except.toBool]
      · intro p hp
        exact absurd hp hall


/-- A record exercising all parsing behaviours: a string-integer pitch, an
unknown field, an integer-cell velocity, and an empty loop cell. -/
def recW : Record :=
  [("pitch", Raw.strIntv 60), ("junk", Raw.badv),
   ("velocity", Raw.intv 100), ("loop", Raw.emptyStr)]

/-- Witness for `note_parse_spec`: the mixed record parses to a Note with
the supplied pitch and velocity and defaults elsewhere; the unknown field
and empty loop are ignored. -/
theorem note_parse_spec_witness :
    note_from_dict recW = Except.ok
      { pitch := 60, channel := 1, loop := 1, onset := 0, duration := 1/10,
        velocity := 100, probability := 1 } :=
  (note_parse_spec recW (by decide)).2 60 (by decide) (by decide) (by decide)

/-- Claim C9 counterexample: the record `{pitch: 200}` — pitch far outside
0–127 — is not rejected: `note_from_dict` returns a Note with pitch 200.
There is no pitch-range sanity check in the code. -/
theorem pitch_range_counterexample :
    (note_from_dict [("pitch", Raw.intv 200)]).toOption =
      some { pitch := 200, channel := 1, loop := 1, onset := 0, duration := 1/10,
             velocity := 64, probability := 1 } ∧ (127 : Int) < 200 :=
  ⟨rfl, by norm_num⟩

/-- Claim C9 (amended): `note_from_dict` applies no pitch-range check — a
record whose pitch coerces to any integer `n`, inside or outside 0–127,
yields a Note with pitch `n`; the 0–127 range is documented guidance for
the spreadsheet author, not enforced by the parser. -/
theorem no_pitch_range_check (n : Int) :
    note_from_dict [("pitch", Raw.intv n)] =
      Except.ok { pitch := n, channel := 1, loop := 1, onset := 0,
                  duration := 1/10, velocity := 64, probability := 1 } := rfl

/-- Claim C8 counterexample: a fetch cycle whose row set contains the same
pitch-60 row twice inserts two identical START events for that note in the
same cycle — the fetcher does not deduplicate by note. -/
theorem duplicate_start_counterexample :
    (receiveCycle (fun _ => 0) 0 [recP60, recP60]).count
      ((0 : ℚ), NOTE_ON, note60) = 2 := by
  have hnote : note_from_dict recP60 = Except.ok note60 := rfl
  have hct : computeTEvent 0 1 0 = 0 := by
    norm_num [computeTEvent, pyFloorDiv, pyMod, bumpFuel]
  simp [receiveCycle, hnote, hct, note60, List.count_cons]

/-- Claim C8 (amended): within one fetch cycle the fetcher inserts exactly
one START event per successfully parsed row (rows that fail to parse are
skipped), and every inserted event is a START; rows parsing to the same
Note each contribute their own START. -/
theorem one_start_per_row (ts : Nat → ℚ) (i : Nat) (records : List Record) :
    (receiveCycle ts i records).length =
      records.countP (fun r => (note_from_dict r).isOk) ∧
    (receiveCycle ts i records).all (fun e => e.2.1 = NOTE_ON) = true := by
  induction records generalizing i with
  | nil => simp [receiveCycle]
  | cons r rs ih =>
    cases h : note_from_dict r with
    | ok note =>
      simp [receiveCycle, h, List.countP_cons, (ih (i + 1)).1, (ih (i + 1)).2,
        Except.isOk, Except.toBool]
    | error e =>
      simp [receiveCycle, h, List.countP_cons, (ih (i + 1)).1, (ih (i + 1)).2,
        Except.isOk, Except.toBool]

end SpreadsheetMusic
